import Mathlib

/-!
Verification of the tag translation and schema-mapping layer of the
aws-helpers repository.

The definitions below are a shallow embedding of the Rust sources:

* `TagKey`, `RawTagValue`, `RawTag`, `TagList` and the error enums mirror
  `src/tags/mod.rs` and `src/tags/error.rs`.
* The boolean manual codec mirrors `src/tags/predefined_types.rs`.
* `translateManualFromRawTag` mirrors the `Translator` implementation for
  `TranslateManual` in `src/tags/mod.rs` (lines 106-128).
* `MyCoolioTag` mirrors the code generated by the transparent-enum branch of
  the `Tag` derive macro (`aws_macros/src/tag.rs`, `TransparentKind::SimpleEnum`)
  for the enum with variants A and B, B renamed to "C".
* The schema mapper (`SchemaField`, `FieldValue`, `from_tags`, `into_tags`) mirrors
  the code generated per record type by the `Tags` attribute macro
  (`aws_macros/src/tags.rs`, `build_output`): per field, in declaration order,
  the generated `from_tags` looks the field's tag key up in the input list,
  fails with `TagNotFound` for a missing required field, decodes through the
  field's `TagValue::from_raw_tag` and wraps a decode failure into
  `ParseTag (InvalidTagValue ...)`; the generated `into_tags` pushes one raw
  tag per present field, in declaration order, and nothing for an absent
  optional field.
-/

/-- Wrapper around a string, as `pub struct TagKey(String)` in `src/tags/mod.rs`. -/
structure TagKey where
  val : String
deriving DecidableEq, Repr

/-- Wrapper around a string, as `pub struct RawTagValue(String)` in `src/tags/mod.rs`. -/
structure RawTagValue where
  val : String
deriving DecidableEq, Repr

/-- A raw key-value pair, as `pub struct RawTag` in `src/tags/mod.rs`. -/
structure RawTag where
  key : TagKey
  value : RawTagValue
deriving DecidableEq, Repr

/-- Ordered collection of raw tags, as `pub struct TagList(Vec<RawTag>)`. -/
structure TagList where
  toList : List RawTag
deriving DecidableEq, Repr

/-- Mirrors `TagList::new`. -/
def TagList.new : TagList := ⟨[]⟩

/-- Mirrors `TagList::push` (`Vec::push`: appends at the end). -/
def TagList.push (l : TagList) (t : RawTag) : TagList := ⟨l.toList ++ [t]⟩

/-- Mirrors `TagList::extend` (appends all given tags at the end). -/
def TagList.extend (l : TagList) (ts : List RawTag) : TagList := ⟨l.toList ++ ts⟩

/-- Mirrors `TagList::join`. -/
def TagList.join (l other : TagList) : TagList := ⟨l.toList ++ other.toList⟩

/-- Mirrors `TagList::from_vec`. -/
def TagList.from_vec (v : List RawTag) : TagList := ⟨v⟩

/-- Mirrors `TagList::get`: the first element whose key equals the given key. -/
def TagList.get (l : TagList) (k : TagKey) : Option RawTag :=
  l.toList.find? (fun t => t.key == k)

/-- Mirrors `ParseTagAwsError` in `src/tags/error.rs`. -/
inductive ParseTagAwsError where
  | awsKeyNone
  | awsValueNone (key : TagKey)
deriving DecidableEq, Repr

/-- Mirrors `ParseTagValueError` in `src/tags/error.rs`. -/
inductive ParseTagValueError where
  | invalidValue (value : RawTagValue) (message : String)
  | invalidBoolValue (value : RawTagValue)
  | aws (inner : ParseTagAwsError)
deriving DecidableEq, Repr

/-- Mirrors the `Display` implementation for `ParseTagAwsError`. -/
def ParseTagAwsError.display : ParseTagAwsError → String
  | .awsKeyNone => "aws responded with `None` value for tag key"
  | .awsValueNone key =>
      "aws responded with `None` value for tag value of tag \"" ++ key.val ++ "\""

/-- Mirrors the `Display` implementation for `ParseTagValueError`. -/
def ParseTagValueError.display : ParseTagValueError → String
  | .invalidBoolValue value => "invalid tag bool value \"" ++ value.val ++ "\""
  | .invalidValue value message =>
      "invalid tag value \"" ++ value.val ++ "\": " ++ message
  | .aws inner => "aws error: " ++ inner.display

/-- Mirrors `ParseTagError` in `src/tags/error.rs`. -/
inductive ParseTagError where
  | invalidTagValue (key : TagKey) (inner : ParseTagValueError)
  | aws (inner : ParseTagAwsError)
deriving DecidableEq, Repr

/-- Mirrors `ParseTagsError` in `src/tags/error.rs`. -/
inductive ParseTagsError where
  | tagNotFound (key : TagKey)
  | parseTag (inner : ParseTagError)
deriving DecidableEq, Repr

deriving instance DecidableEq for Except

/-- Mirrors `TryFrom<RawTagValue> for bool` in `src/tags/predefined_types.rs`:
a sequential match of the raw string against the literals "true" and "false",
every other string yielding `InvalidBoolValue` carrying the raw value. -/
def boolTryFromRawTagValue (value : RawTagValue) : Except ParseTagValueError Bool :=
  if value.val = "true" then Except.ok true
  else if value.val = "false" then Except.ok false
  else Except.error (ParseTagValueError.invalidBoolValue value)

/-- Mirrors `From<bool> for RawTagValue` in `src/tags/predefined_types.rs`. -/
def boolIntoRawTagValue (value : Bool) : RawTagValue :=
  if value then ⟨"true"⟩ else ⟨"false"⟩

/-- Mirrors `Translator<S, T> for TranslateManual::from_raw_tag` in
`src/tags/mod.rs` lines 106-128: delegate to the type's TryFrom conversion and,
on failure, wrap into the generic `InvalidValue` error carrying the raw value
and the inner error's display string as the message. -/
def translateManualFromRawTag {α : Type}
    (tryFromRawTagValue : RawTagValue → Except ParseTagValueError α)
    (value : RawTagValue) : Except ParseTagValueError α :=
  match tryFromRawTagValue value with
  | Except.ok r => Except.ok r
  | Except.error e =>
      Except.error (ParseTagValueError.invalidValue value e.display)

/-- The decode direction of `<bool as TagValue<bool>>::from_raw_tag`: bool's
translator is `TranslateManual`, so the TryFrom conversion wrapped by
`translateManualFromRawTag`. This is the path used by `Tag::parse` and by the
generated `from_tags`. -/
def boolTagValueFromRawTag : RawTagValue → Except ParseTagValueError Bool :=
  translateManualFromRawTag boolTryFromRawTagValue

/-- Mirrors `TryFrom<RawTagValue> for String`, obtained in the source from the
`impl_string_wrapper` conversions on `RawTagValue` (infallible). -/
def stringTryFromRawTagValue (value : RawTagValue) : Except ParseTagValueError String :=
  Except.ok value.val

/-- Mirrors `From<String> for RawTagValue`. -/
def stringIntoRawTagValue (value : String) : RawTagValue := ⟨value⟩

/-- The decode direction of `<String as TagValue<String>>::from_raw_tag`. -/
def stringTagValueFromRawTag : RawTagValue → Except ParseTagValueError String :=
  translateManualFromRawTag stringTryFromRawTagValue

/-- The enum from the `test_enums` test in `src/tags/mod.rs`: variants A and B,
with B renamed to "C". -/
inductive MyCoolioTag where
  | A
  | B
deriving DecidableEq, Repr

/-- Mirrors the generated `From<MyCoolioTag> for RawTagValue`
(`aws_macros/src/tag.rs`, transparent-enum branch): each variant maps to its
literal, the variant name by default, the rename when given. -/
def MyCoolioTag.intoRawTag : MyCoolioTag → RawTagValue
  | MyCoolioTag.A => ⟨"A"⟩
  | MyCoolioTag.B => ⟨"C"⟩

/-- Mirrors the generated `TryFrom<RawTagValue> for MyCoolioTag`
(`aws_macros/src/tag.rs`, transparent-enum branch): a sequential match of the
raw string against the registered literals, the wildcard arm yielding
`InvalidValue` with the message "invalid enum value". -/
def MyCoolioTag.tryFromRawTag (value : RawTagValue) : Except ParseTagValueError MyCoolioTag :=
  if value.val = "A" then Except.ok MyCoolioTag.A
  else if value.val = "C" then Except.ok MyCoolioTag.B
  else Except.error (ParseTagValueError.invalidValue value "invalid enum value")

/-- Required/optional marker of a schema field (`ElementKind` in
`aws_macros/src/tags.rs`). -/
inductive FieldKind where
  | required
  | optional
deriving DecidableEq, Repr

/-- One field descriptor of a record schema: the field's tag key (the field
name, or the `tag(key = ...)` rename: `Element.name` in
`aws_macros/src/tags.rs`), its required/optional kind, and the two directions
of its type's `TagValue` codec as used by the generated code. -/
structure SchemaField (α : Type) where
  tagName : String
  kind : FieldKind
  fromRawTag : RawTagValue → Except ParseTagValueError α
  intoRawTag : α → RawTagValue

/-- The value a record holds for one field: a plain value for a required
field, an optional value for an optional field. -/
inductive FieldValue (α : Type) where
  | required (v : α)
  | optional (v : Option α)
deriving DecidableEq, Repr

/-- A record schema: the ordered list of field descriptors. -/
abbrev Schema (α : Type) := List (SchemaField α)

/-- A record value: the field values in schema order. -/
abbrev Record (α : Type) := List (FieldValue α)

/-- A record value fits a schema when it has one field value per schema field,
of the field's kind. -/
def kindFits {α : Type} : FieldKind → FieldValue α → Bool
  | FieldKind.required, FieldValue.required _ => true
  | FieldKind.optional, FieldValue.optional _ => true
  | _, _ => false

/-- Pointwise `kindFits` over a schema and a record of the same length. -/
def schemaFits {α : Type} : Schema α → Record α → Bool
  | [], [] => true
  | f :: fs, v :: vs => kindFits f.kind v && schemaFits fs vs
  | _, _ => false

/-- Every optional field of the record holds a value. -/
def fullyPopulated {α : Type} : Record α → Bool
  | [] => true
  | FieldValue.required _ :: vs => fullyPopulated vs
  | FieldValue.optional (some _) :: vs => fullyPopulated vs
  | FieldValue.optional none :: _ => false

/-- The per-field key lookup of the generated `from_tags`
(`aws_macros/src/tags.rs` lines 263-279): the first tag in the input list
whose key equals the field's tag name, its value cloned out. -/
def fieldLookup (tags : TagList) (tagName : String) : Option RawTagValue :=
  (tags.toList.find? (fun t => t.key.val == tagName)).map RawTag.value

/-- The per-field decode step of the generated `from_tags`
(`aws_macros/src/tags.rs` lines 234-279): look the field's key up; a missing
required field fails with `TagNotFound`, a missing optional field decodes to
no value; a present value is decoded through the field's codec, a decode
failure being wrapped into `ParseTag (InvalidTagValue key inner)`. -/
def fieldFromTags {α : Type} (f : SchemaField α) (tags : TagList) :
    Except ParseTagsError (FieldValue α) :=
  match f.kind with
  | FieldKind.required =>
    match fieldLookup tags f.tagName with
    | none => Except.error (ParseTagsError.tagNotFound ⟨f.tagName⟩)
    | some raw =>
      match f.fromRawTag raw with
      | Except.error e =>
          Except.error (ParseTagsError.parseTag
            (ParseTagError.invalidTagValue ⟨f.tagName⟩ e))
      | Except.ok v => Except.ok (FieldValue.required v)
  | FieldKind.optional =>
    match fieldLookup tags f.tagName with
    | none => Except.ok (FieldValue.optional none)
    | some raw =>
      match f.fromRawTag raw with
      | Except.error e =>
          Except.error (ParseTagsError.parseTag
            (ParseTagError.invalidTagValue ⟨f.tagName⟩ e))
      | Except.ok v => Except.ok (FieldValue.optional (some v))

/-- The generated `from_tags` (`aws_macros/src/tags.rs` lines 327-331): the
fields are processed in schema declaration order, the first failing field's
error is returned and ends the decode. -/
def from_tags {α : Type} : Schema α → TagList → Except ParseTagsError (Record α)
  | [], _ => Except.ok []
  | f :: fs, tags =>
    match fieldFromTags f tags with
    | Except.error e => Except.error e
    | Except.ok v =>
      match from_tags fs tags with
      | Except.error e => Except.error e
      | Except.ok vs => Except.ok (v :: vs)

/-- The tags one field contributes to the generated `into_tags`
(`aws_macros/src/tags.rs` lines 282-317): one raw tag under the field's key
for a present value, nothing for an absent optional value. -/
def fieldIntoTags {α : Type} (f : SchemaField α) : FieldValue α → List RawTag
  | FieldValue.required v => [⟨⟨f.tagName⟩, f.intoRawTag v⟩]
  | FieldValue.optional (some v) => [⟨⟨f.tagName⟩, f.intoRawTag v⟩]
  | FieldValue.optional none => []

/-- The pushes of the generated `into_tags`, field by field in schema order. -/
def intoTagsList {α : Type} : Schema α → Record α → List RawTag
  | f :: fs, v :: vs => fieldIntoTags f v ++ intoTagsList fs vs
  | _, _ => []

/-- The generated `into_tags` (`aws_macros/src/tags.rs` lines 333-339). -/
def into_tags {α : Type} (s : Schema α) (r : Record α) : TagList :=
  ⟨intoTagsList s r⟩

/-- A bool-typed schema field as produced by the macros: the codec is bool's
`TagValue` implementation (manual translation). -/
def boolField (tagName : String) (kind : FieldKind) : SchemaField Bool :=
  ⟨tagName, kind, boolTagValueFromRawTag, boolIntoRawTagValue⟩

/-- A String-typed schema field as produced by the macros. -/
def stringField (tagName : String) (kind : FieldKind) : SchemaField String :=
  ⟨tagName, kind, stringTagValueFromRawTag, stringIntoRawTagValue⟩

/-- Follows the specification text of the encode direction (each field in
schema order; a present field emits one raw tag under the field's key, an
absent optional field emits nothing), stated as one pass over the
schema-record pairs. Used to compare the source-derived `into_tags` against
the specified output order. -/
def specIntoTags {α : Type} (s : Schema α) (r : Record α) : List RawTag :=
  (s.zip r).filterMap (fun p =>
    match p.2 with
    | FieldValue.required v => some ⟨⟨p.1.tagName⟩, p.1.intoRawTag v⟩
    | FieldValue.optional (some v) => some ⟨⟨p.1.tagName⟩, p.1.intoRawTag v⟩
    | FieldValue.optional none => none)

/-- Concrete schema used to instantiate claim C1: two required bool fields and
one optional bool field, distinct keys. -/
def cOneSchema : Schema Bool :=
  [boolField "Name" .required, boolField "Active" .required, boolField "Note" .optional]

/-- Concrete fully-populated record for `cOneSchema`. -/
def cOneRecord : Record Bool := [.required true, .required false, .optional (some true)]

/-- Concrete schema of three required bool fields, for claim C2. -/
def cTwoSchema : Schema Bool :=
  [boolField "a" .required, boolField "b" .required, boolField "c" .required]

/-- Input for the C2 counterexample: key "a" present with an undecodable
value, keys "b" and "c" (both required) missing. -/
def cTwoTags : TagList := TagList.from_vec [⟨⟨"a"⟩, ⟨"x"⟩⟩]

/-- Prefix schema for the C2 witness. -/
def cTwoPre : Schema Bool := [boolField "a" .required]

/-- First missing required field for the C2 witness. -/
def cTwoField : SchemaField Bool := boolField "b" .required

/-- Suffix schema for the C2 witness, holding the second missing required field. -/
def cTwoPost : Schema Bool := [boolField "c" .required]

/-- Input for the C2 witness: "a" present and valid, "b" and "c" missing. -/
def cTwoOkTags : TagList := TagList.from_vec [⟨⟨"a"⟩, ⟨"true"⟩⟩]

/-- Concrete schema of two required bool fields, for the C3 counterexample. -/
def cThreeSchema : Schema Bool := [boolField "a" .required, boolField "b" .required]

/-- Prefix schema for the C3 witness. -/
def cThreePre : Schema Bool := [boolField "a" .required]

/-- Missing required field for the C3 witness. -/
def cThreeField : SchemaField Bool := boolField "b" .required

/-- Input for the C3 witness: "a" present and valid, "b" missing. -/
def cThreeTags : TagList := TagList.from_vec [⟨⟨"a"⟩, ⟨"true"⟩⟩]

/-- Schema with a duplicated tag key, for the C7 counterexample: a required
field and an optional field both under key "k". The macro performs no
key-conflict detection, so this schema is derivable. -/
def cSevenDupSchema : Schema Bool := [boolField "k" .required, boolField "k" .optional]

/-- Record for the C7 counterexample: the optional field is absent. -/
def cSevenDupRecord : Record Bool := [.required true, .optional none]

/-- Prefix schema for the C7 witness. -/
def cSevenPre : Schema Bool := [boolField "Active" .required]

/-- Absent optional field for the C7 witness. -/
def cSevenField : SchemaField Bool := boolField "Note" .optional

/-- Prefix record for the C7 witness. -/
def cSevenPreRecord : Record Bool := [.required true]

/-- Concrete tag list for the C8 witness, first entry under key "k". -/
def cEightList : TagList := TagList.from_vec [⟨⟨"k"⟩, ⟨"1"⟩⟩, ⟨⟨"q"⟩, ⟨"2"⟩⟩]

/-- Tag pushed in the C8 witness, sharing key "k" with an existing entry. -/
def cEightTag : RawTag := ⟨⟨"k"⟩, ⟨"3"⟩⟩

/-- Concrete schema for the C9 witness, with an optional field in the middle. -/
def cNineSchema : Schema Bool :=
  [boolField "x" .required, boolField "y" .optional, boolField "z" .required]

/-- Record for the C9 witness: the middle optional field is absent. -/
def cNineRecord : Record Bool := [.required true, .optional none, .required false]

/-- Concrete schema for the C10 witness. -/
def cTenSchema : Schema Bool := [boolField "a" .required]

/-- Input tags for the C10 witness. -/
def cTenTags : TagList := TagList.from_vec [⟨⟨"a"⟩, ⟨"true"⟩⟩]

/-- Appended tags for the C10 witness, keys foreign to the schema. -/
def cTenExtra : List RawTag := [⟨⟨"zzz"⟩, ⟨"1"⟩⟩, ⟨⟨"www"⟩, ⟨"2"⟩⟩]

theorem find_append_left {β : Type} (p : β → Bool) (l₁ l₂ : List β)
    (h : ∀ y ∈ l₁, p y = false) :
    (l₁ ++ l₂).find? p = l₂.find? p := by
  induction l₁ with
  | nil => simp
  | cons a as ih =>
    rw [List.cons_append, List.find?_cons_of_neg _ (by simp [h a (by simp)])]
    exact ih fun y hy => h y (by simp [hy])

theorem find_append_right {β : Type} (p : β → Bool) (l₁ l₂ : List β)
    (h : ∀ y ∈ l₂, p y = false) :
    (l₁ ++ l₂).find? p = l₁.find? p := by
  rw [List.find?_append,
    show List.find? p l₂ = none from List.find?_eq_none.mpr (by intro x hx; simp [h x hx]),
    Option.or_none]

theorem fieldLookup_cons_self {α : Type} (f : SchemaField α) (raw : RawTagValue)
    (rest : List RawTag) :
    fieldLookup ⟨⟨⟨f.tagName⟩, raw⟩ :: rest⟩ f.tagName = some raw := by
  unfold fieldLookup
  rw [List.find?_cons_of_pos _ (by simp)]
  rfl

theorem fieldLookup_none {α : Type} (tags : TagList) (f : SchemaField α)
    (h : ∀ t ∈ tags.toList, t.key.val ≠ f.tagName) :
    fieldLookup tags f.tagName = none := by
  unfold fieldLookup
  rw [List.find?_eq_none.mpr (by intro x hx; simp [h x hx])]
  rfl

theorem fieldLookup_append_left (pre rest : List RawTag) (n : String)
    (h : ∀ t ∈ pre, t.key.val ≠ n) :
    fieldLookup ⟨pre ++ rest⟩ n = fieldLookup ⟨rest⟩ n := by
  unfold fieldLookup
  rw [find_append_left _ _ _ (by intro y hy; simp [h y hy])]

theorem fieldLookup_append_right (tags : List RawTag) (extra : List RawTag) (n : String)
    (h : ∀ t ∈ extra, t.key.val ≠ n) :
    fieldLookup ⟨tags ++ extra⟩ n = fieldLookup ⟨tags⟩ n := by
  unfold fieldLookup
  rw [find_append_right _ _ _ (by intro y hy; simp [h y hy])]

theorem fieldFromTags_congr {α : Type} (f : SchemaField α) (t₁ t₂ : TagList)
    (h : fieldLookup t₁ f.tagName = fieldLookup t₂ f.tagName) :
    fieldFromTags f t₁ = fieldFromTags f t₂ := by
  unfold fieldFromTags
  rw [h]

theorem from_tags_congr {α : Type} (s : Schema α) (t₁ t₂ : TagList)
    (h : ∀ f ∈ s, fieldLookup t₁ f.tagName = fieldLookup t₂ f.tagName) :
    from_tags s t₁ = from_tags s t₂ := by
  induction s with
  | nil => rfl
  | cons f fs ih =>
    show (match fieldFromTags f t₁ with
      | Except.error e => Except.error e
      | Except.ok v =>
        match from_tags fs t₁ with
        | Except.error e => Except.error e
        | Except.ok vs => Except.ok (v :: vs)) = _
    rw [fieldFromTags_congr f t₁ t₂ (h f (by simp)), ih fun g hg => h g (by simp [hg])]
    rfl

theorem fieldIntoTags_key {α : Type} (f : SchemaField α) (v : FieldValue α) (t : RawTag)
    (h : t ∈ fieldIntoTags f v) : t.key = ⟨f.tagName⟩ := by
  cases v with
  | required x =>
    simp only [fieldIntoTags, List.mem_singleton] at h
    rw [h]
  | optional o =>
    cases o with
    | none => simp [fieldIntoTags] at h
    | some x =>
      simp only [fieldIntoTags, List.mem_singleton] at h
      rw [h]

theorem intoTagsList_key_mem {α : Type} :
    ∀ (s : Schema α) (r : Record α) (t : RawTag),
      t ∈ intoTagsList s r → t.key.val ∈ s.map SchemaField.tagName := by
  intro s
  induction s with
  | nil =>
    intro r t h
    cases r <;> simp [intoTagsList] at h
  | cons f fs ih =>
    intro r t h
    cases r with
    | nil => simp [intoTagsList] at h
    | cons v vs =>
      rw [show intoTagsList (f :: fs) (v :: vs) = fieldIntoTags f v ++ intoTagsList fs vs
        from rfl, List.mem_append] at h
      rcases h with h | h
      · rw [fieldIntoTags_key f v t h]
        simp
      · simp [ih vs t h]

theorem intoTagsList_no_key {α : Type} :
    ∀ (s : Schema α) (r : Record α) (k : String),
      (∀ p ∈ s.zip r, p.1.tagName = k → fieldIntoTags p.1 p.2 = []) →
      ∀ t ∈ intoTagsList s r, t.key.val ≠ k := by
  intro s
  induction s with
  | nil =>
    intro r k _ t ht
    cases r <;> simp [intoTagsList] at ht
  | cons f fs ih =>
    intro r k h t ht
    cases r with
    | nil => simp [intoTagsList] at ht
    | cons v vs =>
      rw [show intoTagsList (f :: fs) (v :: vs) = fieldIntoTags f v ++ intoTagsList fs vs
        from rfl, List.mem_append] at ht
      rcases ht with ht | ht
      · intro hcontra
        have hkey := fieldIntoTags_key f v t ht
        have hname : f.tagName = k := by
          rw [hkey] at hcontra
          exact hcontra
        have hempty := h (f, v) (by rw [List.zip_cons_cons]; simp) hname
        rw [hempty] at ht
        simp at ht
      · exact ih vs k (fun p hp => h p (by rw [List.zip_cons_cons]; simp [hp])) t ht

theorem from_tags_into_tags {α : Type} :
    ∀ (s : Schema α) (r : Record α),
      (s.map SchemaField.tagName).Nodup →
      (∀ f ∈ s, ∀ v, f.fromRawTag (f.intoRawTag v) = Except.ok v) →
      schemaFits s r = true →
      from_tags s (into_tags s r) = Except.ok r := by
  intro s
  induction s with
  | nil =>
    intro r _ _ hfits
    cases r with
    | nil => rfl
    | cons v vs => simp [schemaFits] at hfits
  | cons f fs ih =>
    intro r hnd hrt hfits
    cases r with
    | nil => simp [schemaFits] at hfits
    | cons v vs =>
      simp only [schemaFits, Bool.and_eq_true] at hfits
      obtain ⟨hkind, hfitsTail⟩ := hfits
      rw [List.map_cons, List.nodup_cons] at hnd
      obtain ⟨hndHead, hndTail⟩ := hnd
      have hrtHead := hrt f (by simp)
      have hrtTail : ∀ g ∈ fs, ∀ v, g.fromRawTag (g.intoRawTag v) = Except.ok v :=
        fun g hg => hrt g (by simp [hg])
      have hTagEq : into_tags (f :: fs) (v :: vs)
          = ⟨fieldIntoTags f v ++ intoTagsList fs vs⟩ := rfl
      have hRestKeys : ∀ t ∈ intoTagsList fs vs, t.key.val ≠ f.tagName := by
        intro t ht hcontra
        exact hndHead (hcontra ▸ intoTagsList_key_mem fs vs t ht)
      have hHead : fieldFromTags f (into_tags (f :: fs) (v :: vs)) = Except.ok v := by
        cases v with
        | required x =>
          cases hk : f.kind with
          | optional => rw [hk] at hkind; simp [kindFits] at hkind
          | required =>
            have hlk : fieldLookup (into_tags (f :: fs) (FieldValue.required x :: vs)) f.tagName
                = some (f.intoRawTag x) := by
              rw [hTagEq]
              exact fieldLookup_cons_self f (f.intoRawTag x) (intoTagsList fs vs)
            simp only [fieldFromTags, hk, hlk, hrtHead x]
        | optional o =>
          cases hk : f.kind with
          | required => rw [hk] at hkind; simp [kindFits] at hkind
          | optional =>
            cases o with
            | some x =>
              have hlk : fieldLookup
                  (into_tags (f :: fs) (FieldValue.optional (some x) :: vs)) f.tagName
                  = some (f.intoRawTag x) := by
                rw [hTagEq]
                exact fieldLookup_cons_self f (f.intoRawTag x) (intoTagsList fs vs)
              simp only [fieldFromTags, hk, hlk, hrtHead x]
            | none =>
              have hlk : fieldLookup
                  (into_tags (f :: fs) (FieldValue.optional none :: vs)) f.tagName = none := by
                rw [hTagEq]
                exact fieldLookup_none _ f (by simpa [fieldIntoTags] using hRestKeys)
              simp only [fieldFromTags, hk, hlk]
      have hTail : from_tags fs (into_tags (f :: fs) (v :: vs))
          = from_tags fs (into_tags fs vs) := by
        apply from_tags_congr
        intro g hg
        rw [hTagEq]
        show fieldLookup ⟨fieldIntoTags f v ++ intoTagsList fs vs⟩ g.tagName = _
        rw [fieldLookup_append_left]
        · rfl
        · intro t ht hcontra
          have hkey := fieldIntoTags_key f v t ht
          rw [hkey] at hcontra
          have hfg : f.tagName = g.tagName := hcontra
          exact hndHead (by rw [hfg]; exact List.mem_map_of_mem SchemaField.tagName hg)
      simp only [from_tags, hHead, hTail, ih vs hndTail hrtTail hfitsTail]

theorem from_tags_cons_error {α : Type} (f : SchemaField α) (fs : Schema α) (t : TagList)
    (e : ParseTagsError) (h : fieldFromTags f t = Except.error e) :
    from_tags (f :: fs) t = Except.error e := by
  simp only [from_tags, h]

theorem from_tags_append_error {α : Type} (pre rest : Schema α) (t : TagList)
    (e : ParseTagsError)
    (hpre : ∀ g ∈ pre, ∃ v, fieldFromTags g t = Except.ok v)
    (hrest : from_tags rest t = Except.error e) :
    from_tags (pre ++ rest) t = Except.error e := by
  induction pre with
  | nil => simpa using hrest
  | cons g gs ih =>
    obtain ⟨v, hv⟩ := hpre g (by simp)
    have htail := ih fun g2 hg2 => hpre g2 (by simp [hg2])
    rw [List.cons_append]
    simp only [from_tags, hv, htail]

theorem fieldFromTags_required_missing {α : Type} (f : SchemaField α) (t : TagList)
    (hreq : f.kind = FieldKind.required)
    (h : ∀ tag ∈ t.toList, tag.key.val ≠ f.tagName) :
    fieldFromTags f t = Except.error (ParseTagsError.tagNotFound ⟨f.tagName⟩) := by
  simp only [fieldFromTags, hreq, fieldLookup_none t f h]

/-- Claim C1: for every schema whose fields have pairwise-distinct tag keys
and round-trip-correct codecs, and every fully-populated record fitting the
schema, decoding the encoding reproduces the record exactly. -/
theorem roundtrip_fully_populated {α : Type} (s : Schema α) (r : Record α)
    (hnd : (s.map SchemaField.tagName).Nodup)
    (hrt : ∀ f ∈ s, ∀ v, f.fromRawTag (f.intoRawTag v) = Except.ok v)
    (hfits : schemaFits s r = true)
    (hfull : fullyPopulated r = true) :
    from_tags s (into_tags s r) = Except.ok r :=
  from_tags_into_tags s r hnd hrt hfits

/-- Witness for C1 at a concrete three-field bool schema. -/
theorem roundtrip_fully_populated_witness :
    from_tags cOneSchema (into_tags cOneSchema cOneRecord) = Except.ok cOneRecord :=
  roundtrip_fully_populated cOneSchema cOneRecord (by decide) (by decide) (by decide)
    (by decide)

/-- Counterexample to claim C2 as stated: in the schema of required bool
fields a, b, c, the input list carries "a" with the undecodable value "x" and
misses both required keys "b" and "c"; from_tags reports the decode failure
of field "a", not the first missing field "b". -/
theorem fail_fast_counterexample :
    from_tags cTwoSchema cTwoTags
      = Except.error (ParseTagsError.parseTag (ParseTagError.invalidTagValue ⟨"a"⟩
          (ParseTagValueError.invalidValue ⟨"x"⟩ "invalid tag bool value \"x\""))) ∧
    from_tags cTwoSchema cTwoTags ≠ Except.error (ParseTagsError.tagNotFound ⟨"b"⟩) := by
  constructor
  · rfl
  · decide

/-- Claim C2 (amended): when every field before the first missing required
field decodes successfully, from_tags reports only that field, with a
TagNotFound error carrying its key; no later field (in particular no other
missing required field) influences the result. -/
theorem fail_fast_first_missing {α : Type} (pre post : Schema α) (f : SchemaField α)
    (t : TagList)
    (hreq : f.kind = FieldKind.required)
    (hmiss : ∀ tag ∈ t.toList, tag.key.val ≠ f.tagName)
    (hpre : ∀ g ∈ pre, ∃ v, fieldFromTags g t = Except.ok v)
    (hlater : ∃ g ∈ post, g.kind = FieldKind.required ∧
        ∀ tag ∈ t.toList, tag.key.val ≠ g.tagName) :
    from_tags (pre ++ f :: post) t = Except.error (ParseTagsError.tagNotFound ⟨f.tagName⟩) ∧
    ∀ post2 : Schema α,
      from_tags (pre ++ f :: post2) t
        = Except.error (ParseTagsError.tagNotFound ⟨f.tagName⟩) := by
  have h2 : ∀ post2 : Schema α,
      from_tags (pre ++ f :: post2) t
        = Except.error (ParseTagsError.tagNotFound ⟨f.tagName⟩) := by
    intro post2
    exact from_tags_append_error pre (f :: post2) t _ hpre
      (from_tags_cons_error f post2 t _ (fieldFromTags_required_missing f t hreq hmiss))
  exact ⟨h2 post, h2⟩

/-- Witness for the amended C2: fields a, b, c required; "a" present and
valid, "b" and "c" missing; the error is TagNotFound for "b". -/
theorem fail_fast_first_missing_witness :
    from_tags (cTwoPre ++ cTwoField :: cTwoPost) cTwoOkTags
      = Except.error (ParseTagsError.tagNotFound ⟨"b"⟩) :=
  (fail_fast_first_missing cTwoPre cTwoPost cTwoField cTwoOkTags rfl (by decide)
    (by
      intro g hg
      rw [cTwoPre, List.mem_singleton] at hg
      subst hg
      exact ⟨FieldValue.required true, rfl⟩)
    ⟨boolField "c" FieldKind.required, by rw [cTwoPost]; exact List.mem_singleton.mpr rfl,
      rfl, by decide⟩).1

/-- Counterexample to claim C3 as stated: both required fields a and b are
missing from the empty input; from_tags, instantiated at the required field
with key "b", reports TagNotFound for "a", not for "b". -/
theorem required_missing_counterexample :
    from_tags cThreeSchema TagList.new
      = Except.error (ParseTagsError.tagNotFound ⟨"a"⟩) ∧
    from_tags cThreeSchema TagList.new
      ≠ Except.error (ParseTagsError.tagNotFound ⟨"b"⟩) := by
  constructor
  · rfl
  · decide

/-- Claim C3 (amended): when every field before the required field with key k
decodes successfully and no input tag carries key k, from_tags fails with
TagNotFound carrying exactly k, whatever the fields after it look like. -/
theorem required_missing_reports_key {α : Type} (pre post : Schema α)
    (f : SchemaField α) (t : TagList)
    (hreq : f.kind = FieldKind.required)
    (hmiss : ∀ tag ∈ t.toList, tag.key.val ≠ f.tagName)
    (hpre : ∀ g ∈ pre, ∃ v, fieldFromTags g t = Except.ok v) :
    from_tags (pre ++ f :: post) t
      = Except.error (ParseTagsError.tagNotFound ⟨f.tagName⟩) :=
  from_tags_append_error pre (f :: post) t _ hpre
    (from_tags_cons_error f post t _ (fieldFromTags_required_missing f t hreq hmiss))

/-- Witness for the amended C3. -/
theorem required_missing_reports_key_witness :
    from_tags (cThreePre ++ cThreeField :: []) cThreeTags
      = Except.error (ParseTagsError.tagNotFound ⟨"b"⟩) :=
  required_missing_reports_key cThreePre [] cThreeField cThreeTags rfl (by decide)
    (by
      intro g hg
      rw [cThreePre, List.mem_singleton] at hg
      subst hg
      exact ⟨FieldValue.required true, rfl⟩)

/-- Claim C4: the boolean manual codec encodes true and false to the raw
strings "true" and "false", decodes exactly those two strings back, and
rejects every other string (case-sensitively) with an error. -/
theorem bool_codec_exact :
    boolIntoRawTagValue true = ⟨"true"⟩ ∧
    boolIntoRawTagValue false = ⟨"false"⟩ ∧
    boolTryFromRawTagValue ⟨"true"⟩ = Except.ok true ∧
    boolTryFromRawTagValue ⟨"false"⟩ = Except.ok false ∧
    ∀ s : String, s ≠ "true" → s ≠ "false" →
      boolTryFromRawTagValue ⟨s⟩
        = Except.error (ParseTagValueError.invalidBoolValue ⟨s⟩) := by
  refine ⟨rfl, rfl, rfl, rfl, ?_⟩
  intro s h1 h2
  simp only [boolTryFromRawTagValue]
  rw [if_neg h1, if_neg h2]

/-- Witness for C4: the differently-cased spelling "True" is rejected. -/
theorem bool_codec_exact_witness :
    boolTryFromRawTagValue ⟨"True"⟩
      = Except.error (ParseTagValueError.invalidBoolValue ⟨"True"⟩) :=
  bool_codec_exact.2.2.2.2 "True" (by decide) (by decide)

/-- Counterexample to claim C5 as stated: decoding "x" through the
TagValue/Translator path used by Tag::parse and from_tags does not yield the
boolean-specific InvalidBoolValue error; it yields the generic InvalidValue
error (whose message is the display text of the boolean-specific error). -/
theorem bool_translator_counterexample :
    boolTagValueFromRawTag ⟨"x"⟩
      = Except.error (ParseTagValueError.invalidValue ⟨"x"⟩
          "invalid tag bool value \"x\"") ∧
    boolTagValueFromRawTag ⟨"x"⟩
      ≠ Except.error (ParseTagValueError.invalidBoolValue ⟨"x"⟩) := by
  constructor
  · rfl
  · decide

/-- Claim C5 (amended): for every raw string other than "true" and "false",
the bool TryFrom conversion itself fails with the boolean-specific
InvalidBoolValue sub-kind carrying the raw value, and the TagValue/Translator
decode path used by Tag::parse and from_tags wraps it into the generic
InvalidValue error that carries the same raw value and the boolean-specific
message text. -/
theorem bool_translator_wraps_bool_error (s : String)
    (h1 : s ≠ "true") (h2 : s ≠ "false") :
    boolTryFromRawTagValue ⟨s⟩
      = Except.error (ParseTagValueError.invalidBoolValue ⟨s⟩) ∧
    boolTagValueFromRawTag ⟨s⟩
      = Except.error (ParseTagValueError.invalidValue ⟨s⟩
          ((ParseTagValueError.invalidBoolValue ⟨s⟩).display)) ∧
    (ParseTagValueError.invalidBoolValue (⟨s⟩ : RawTagValue)).display
      = "invalid tag bool value \"" ++ s ++ "\"" := by
  have htf : boolTryFromRawTagValue ⟨s⟩
      = Except.error (ParseTagValueError.invalidBoolValue ⟨s⟩) := by
    simp only [boolTryFromRawTagValue]
    rw [if_neg h1, if_neg h2]
  refine ⟨htf, ?_, rfl⟩
  simp only [boolTagValueFromRawTag, translateManualFromRawTag, htf]

/-- Witness for the amended C5 at the raw string "yes". -/
theorem bool_translator_wraps_bool_error_witness :
    boolTagValueFromRawTag ⟨"yes"⟩
      = Except.error (ParseTagValueError.invalidValue ⟨"yes"⟩
          "invalid tag bool value \"yes\"") :=
  (bool_translator_wraps_bool_error "yes" (by decide) (by decide)).2.1

/-- Claim C6: the transparent-enum codec over variants A and B (B renamed to
"C") encodes A to "A" and B to "C", decodes "A" and "C" back, rejects "B"
(no longer a registered literal once renamed) with the generic value error
carrying the raw value and the message "invalid enum value", and rejects
every other string the same way, case-sensitively. -/
theorem enum_transparent_codec :
    MyCoolioTag.intoRawTag MyCoolioTag.A = ⟨"A"⟩ ∧
    MyCoolioTag.intoRawTag MyCoolioTag.B = ⟨"C"⟩ ∧
    MyCoolioTag.tryFromRawTag ⟨"A"⟩ = Except.ok MyCoolioTag.A ∧
    MyCoolioTag.tryFromRawTag ⟨"C"⟩ = Except.ok MyCoolioTag.B ∧
    MyCoolioTag.tryFromRawTag ⟨"B"⟩
      = Except.error (ParseTagValueError.invalidValue ⟨"B"⟩ "invalid enum value") ∧
    ∀ s : String, s ≠ "A" → s ≠ "C" →
      MyCoolioTag.tryFromRawTag ⟨s⟩
        = Except.error (ParseTagValueError.invalidValue ⟨s⟩ "invalid enum value") := by
  refine ⟨rfl, rfl, rfl, rfl, rfl, ?_⟩
  intro s h1 h2
  simp only [MyCoolioTag.tryFromRawTag]
  rw [if_neg h1, if_neg h2]

/-- Witness for C6: the lower-cased spelling "a" is rejected. -/
theorem enum_transparent_codec_witness :
    MyCoolioTag.tryFromRawTag ⟨"a"⟩
      = Except.error (ParseTagValueError.invalidValue ⟨"a"⟩ "invalid enum value") :=
  enum_transparent_codec.2.2.2.2.2 "a" (by decide) (by decide)

/-- Counterexample to claim C7 as stated: in a schema where a required field
and an optional field share the tag key "k", encoding a record whose optional
field is absent still produces an entry under key "k" (emitted by the
required field). -/
theorem optional_absent_counterexample :
    (into_tags cSevenDupSchema cSevenDupRecord).toList = [⟨⟨"k"⟩, ⟨"true"⟩⟩] ∧
    (⟨⟨"k"⟩, ⟨"true"⟩⟩ : RawTag).key.val = "k" :=
  ⟨rfl, rfl⟩

/-- Claim C7 (amended): when no two fields share a tag key and every codec is
round-trip-correct, encoding a record whose optional field is absent produces
no entry under that field's key, and decoding the encoded list reproduces the
record, with the optional field absent again. -/
theorem optional_absent_omitted_roundtrip {α : Type} (pre post : Schema α)
    (f : SchemaField α) (rpre rpost : Record α)
    (hopt : f.kind = FieldKind.optional)
    (hlen : pre.length = rpre.length)
    (hnd : ((pre ++ f :: post).map SchemaField.tagName).Nodup)
    (hrt : ∀ g ∈ pre ++ f :: post, ∀ v, g.fromRawTag (g.intoRawTag v) = Except.ok v)
    (hfits : schemaFits (pre ++ f :: post)
      (rpre ++ FieldValue.optional none :: rpost) = true) :
    (∀ t ∈ (into_tags (pre ++ f :: post)
        (rpre ++ FieldValue.optional none :: rpost)).toList, t.key.val ≠ f.tagName) ∧
    from_tags (pre ++ f :: post)
        (into_tags (pre ++ f :: post) (rpre ++ FieldValue.optional none :: rpost))
      = Except.ok (rpre ++ FieldValue.optional none :: rpost) := by
  have hnd2 := hnd
  rw [List.map_append, List.map_cons, List.nodup_append] at hnd2
  obtain ⟨hndPre, hndMid, hdisj⟩ := hnd2
  rw [List.nodup_cons] at hndMid
  have hnotpre : f.tagName ∉ pre.map SchemaField.tagName :=
    fun hmem => (hdisj hmem) (by simp)
  have hnotpost : f.tagName ∉ post.map SchemaField.tagName := hndMid.1
  constructor
  · apply intoTagsList_no_key
    intro p hp hname
    rw [List.zip_append hlen] at hp
    rcases List.mem_append.mp hp with hp | hp
    · exact absurd
        (hname ▸ List.mem_map_of_mem SchemaField.tagName (List.of_mem_zip hp).1) hnotpre
    · rw [List.zip_cons_cons] at hp
      rcases List.mem_cons.mp hp with hp | hp
      · rw [hp]
        rfl
      · exact absurd
          (hname ▸ List.mem_map_of_mem SchemaField.tagName (List.of_mem_zip hp).1) hnotpost
  · exact from_tags_into_tags _ _ hnd hrt hfits

/-- Witness for the amended C7: one required field "Active" plus the absent
optional field "Note"; the encoded list decodes back to the record. -/
theorem optional_absent_omitted_roundtrip_witness :
    from_tags (cSevenPre ++ cSevenField :: [])
        (into_tags (cSevenPre ++ cSevenField :: [])
          (cSevenPreRecord ++ FieldValue.optional none :: []))
      = Except.ok (cSevenPreRecord ++ FieldValue.optional none :: []) :=
  (optional_absent_omitted_roundtrip cSevenPre [] cSevenField cSevenPreRecord [] rfl rfl
    (by decide) (by decide) (by decide)).2

/-- Claim C8: TagList.push appends at the end without removing or reordering
anything; TagList.get returns the first element (in insertion order) whose
key matches, and none when no key matches; in particular, after pushing a
tag with a key that already occurs, the earlier entry still wins on lookup. -/
theorem taglist_get_first_push_append (l : TagList) (k : TagKey) (t : RawTag) :
    ((TagList.push l t).toList = l.toList ++ [t]) ∧
    (TagList.get l k = none ↔ ∀ x ∈ l.toList, x.key ≠ k) ∧
    (∀ x : RawTag, TagList.get l k = some x ↔
      x.key = k ∧ ∃ l1 l2, l.toList = l1 ++ x :: l2 ∧ ∀ y ∈ l1, y.key ≠ k) ∧
    (∀ x : RawTag, TagList.get l k = some x →
      TagList.get (TagList.push l t) k = some x) := by
  refine ⟨rfl, ?_, ?_, ?_⟩
  · unfold TagList.get
    rw [List.find?_eq_none]
    constructor
    · intro h x hx
      simpa using h x hx
    · intro h x hx
      simpa using h x hx
  · intro x
    unfold TagList.get
    rw [List.find?_eq_some]
    constructor
    · rintro ⟨hpx, l1, l2, heq, hall⟩
      refine ⟨by simpa using hpx, l1, l2, heq, ?_⟩
      intro y hy
      simpa using hall y hy
    · rintro ⟨hkx, l1, l2, heq, hall⟩
      refine ⟨by simp [hkx], l1, l2, heq, ?_⟩
      intro y hy
      simpa using hall y hy
  · intro x hx
    unfold TagList.get at hx
    unfold TagList.get TagList.push
    rw [List.find?_append, hx]
    rfl

/-- Witness for C8: in a list whose first entry has key "k", pushing another
tag with key "k" leaves the first entry winning on lookup. -/
theorem taglist_get_first_push_append_witness :
    TagList.get (TagList.push cEightList cEightTag) ⟨"k"⟩ = some ⟨⟨"k"⟩, ⟨"1"⟩⟩ :=
  (taglist_get_first_push_append cEightList ⟨"k"⟩ cEightTag).2.2.2 ⟨⟨"k"⟩, ⟨"1"⟩⟩
    (by decide)

/-- Claim C9: into_tags lists the raw tags of the present fields in exactly
the schema's field declaration order; absent optional fields contribute
nothing and do not disturb the order of the rest. The output equals the
specification-side one-pass encoding, and its key sequence is a sublist of
the schema's key sequence. -/
theorem into_tags_schema_order {α : Type} :
    ∀ (s : Schema α) (r : Record α),
      (into_tags s r).toList = specIntoTags s r ∧
      List.Sublist ((into_tags s r).toList.map (fun t => t.key.val))
        (s.map SchemaField.tagName) := by
  intro s
  induction s with
  | nil =>
    intro r
    cases r with
    | nil => exact ⟨rfl, by simp [into_tags, intoTagsList]⟩
    | cons v vs => exact ⟨rfl, by simp [into_tags, intoTagsList]⟩
  | cons f fs ih =>
    intro r
    cases r with
    | nil =>
      constructor
      · rfl
      · show List.Sublist (List.map (fun t => t.key.val) (intoTagsList (f :: fs) []))
          (List.map SchemaField.tagName (f :: fs))
        rw [show intoTagsList (f :: fs) ([] : Record α) = [] from rfl]
        simp
    | cons v vs =>
      have ihv := ih vs
      constructor
      · show fieldIntoTags f v ++ intoTagsList fs vs = specIntoTags (f :: fs) (v :: vs)
        rw [show intoTagsList fs vs = (into_tags fs vs).toList from rfl, ihv.1]
        simp only [specIntoTags, List.zip_cons_cons, List.filterMap_cons]
        cases v with
        | required x => rfl
        | optional o =>
          cases o with
          | some x => rfl
          | none => rfl
      · show List.Sublist
          (List.map (fun t => t.key.val) (fieldIntoTags f v ++ intoTagsList fs vs))
          (List.map SchemaField.tagName (f :: fs))
        rw [List.map_append, List.map_cons,
          show intoTagsList fs vs = (into_tags fs vs).toList from rfl]
        cases v with
        | required x => exact List.Sublist.cons₂ f.tagName ihv.2
        | optional o =>
          cases o with
          | some x => exact List.Sublist.cons₂ f.tagName ihv.2
          | none => exact List.Sublist.cons f.tagName ihv.2

/-- Witness for C9 at a concrete schema with an absent middle optional
field: the encoded keys are the required fields' keys in schema order. -/
theorem into_tags_schema_order_witness :
    (into_tags cNineSchema cNineRecord).toList = specIntoTags cNineSchema cNineRecord :=
  (into_tags_schema_order cNineSchema cNineRecord).1

/-- Claim C10: appending tags whose keys differ from every schema field's
tag key does not change the result of from_tags. -/
theorem from_tags_ignores_unknown_keys {α : Type} (s : Schema α) (tags : TagList)
    (extra : List RawTag)
    (h : ∀ t ∈ extra, ∀ f ∈ s, t.key.val ≠ f.tagName) :
    from_tags s (TagList.extend tags extra) = from_tags s tags := by
  apply from_tags_congr
  intro f hf
  show fieldLookup ⟨tags.toList ++ extra⟩ f.tagName = fieldLookup tags f.tagName
  rw [fieldLookup_append_right]
  intro t ht
  exact h t ht f hf

/-- Witness for C10. -/
theorem from_tags_ignores_unknown_keys_witness :
    from_tags cTenSchema (TagList.extend cTenTags cTenExtra)
      = from_tags cTenSchema cTenTags :=
  from_tags_ignores_unknown_keys cTenSchema cTenTags cTenExtra (by decide)
